import Mathlib

/-!
Verification development for the MinIO private-bucket browser (`src/app.py`).

The Python source is shallowly embedded: every definition below is translated
from a specific function of `app.py` (the doc comments name the lines).
Python strings are Lean `String`s; `str.split('/')`, `str.rstrip('/')`,
slicing, and `os.path.basename` are embedded as executable functions over the
underlying character lists so that concrete runs evaluate inside the kernel.
The process-global dictionary `download_tasks` is embedded as an association
list with Python-dict lookup/update semantics, and the server-sent-event
generator of `/download-folder-progress` is embedded as a pure function from
the listing, the fetch results and a cancellation schedule to the emitted
event list plus the final registry.
-/

namespace MinioApp

/-- Embedding of Python `s.split(sep)` for a single-character separator:
splitting `""` yields `[""]`, adjacent separators yield empty segments. -/
def pySplitAux (sep : Char) : List Char → List Char → List String
  | [], acc => [String.mk acc.reverse]
  | c :: rest, acc =>
    if c == sep then String.mk acc.reverse :: pySplitAux sep rest []
    else pySplitAux sep rest (c :: acc)

/-- Python `s.split('/')` (and similar single-character splits). -/
def pySplit (s : String) (sep : Char) : List String :=
  pySplitAux sep s.data []

/-- Python `s.rstrip('/')`: remove every trailing `'/'`. -/
def pyRstripSlash (s : String) : String :=
  String.mk ((s.data.reverse.dropWhile (fun c => c == '/')).reverse)

/-- Python `s.endswith('/')`. -/
def pyEndsWithSlash (s : String) : Bool :=
  s.data.getLast? == some '/'

/-- Python `os.path.basename`: the part after the last `'/'`. -/
def pyBasename (s : String) : String :=
  (pySplit s '/').getLastD ""

/-- Python slice `key[len(fp):]` (character based, like Python). -/
def pyDropLen (key fp : String) : String :=
  String.mk (key.data.drop fp.data.length)

/-- The prefix normalization performed by `folder_info` (app.py:186-187),
`download_folder_progress` (app.py:267-270) and `download_folder`
(app.py:417-418): append `'/'` unless already present. -/
def normalizeFolderPath (p : String) : String :=
  if pyEndsWithSlash p then p else p ++ "/"

/-- One object record of an S3 `list_objects_v2` listing: the fields of
`obj` that `app.py` reads (`obj['Key']`, `obj['Size']`). -/
structure S3Object where
  Key : String
  Size : Nat
deriving DecidableEq

/-- A file entry as stored by `build_tree` (app.py:79, app.py:82):
the full object key together with its size. -/
structure FileEntry where
  key : String
  size : Nat
deriving DecidableEq

/-- One folder level of the tree built by `build_tree`: the Python dict
`{"files": [...], "folders": {...}}`.  The nested mapping from folder name
to node is an insertion-ordered association list, like a Python dict. -/
inductive Node : Type where
  | mk : List FileEntry → List (String × Node) → Node

/-- The `"files"` component of a tree node. -/
def Node.files : Node → List FileEntry
  | .mk fs _ => fs

/-- The `"folders"` component of a tree node. -/
def Node.folders : Node → List (String × Node)
  | .mk _ sub => sub

/-- The top level of `build_tree`'s result: a Python dict from name to node
(the name `"_root_files"` is the reserved bucket for root-level files). -/
abbrev TreeMap := List (String × Node)

/-- Python dict read `m[k]` / `k in m`, as an option-valued lookup. -/
def mapGet (m : TreeMap) (k : String) : Option Node :=
  (m.find? (fun p => p.1 == k)).map (fun p => p.2)

/-- Python dict write `m[k] = v`: overwrite in place if the key exists
(keeping its position), otherwise append at the end. -/
def mapSet : TreeMap → String → Node → TreeMap
  | [], k, v => [(k, v)]
  | (k', v') :: rest, k, v =>
    if k' == k then (k, v) :: rest else (k', v') :: mapSet rest k v

/-- First pass of `build_tree` over one key (app.py:65-68): walk
`parts[:-1]` from the top level, creating `{"files": [], "folders": {}}`
for each missing segment, descending through `["folders"]` each step. -/
def ensureChain : TreeMap → List String → TreeMap
  | m, [] => m
  | m, part :: rest =>
    let node := match mapGet m part with
      | some n => n
      | none => Node.mk [] []
    mapSet m part (Node.mk node.files (ensureChain node.folders rest))

/-- Second pass of `build_tree` for a multi-segment key (app.py:74-79):
re-walk `parts[:-2]` through `["folders"]`, ensure `parts[-2]` exists, and
append the file entry to its `"files"` list.  The first pass has already
created the whole chain, so the lookups on the walk always succeed; the
`none` fallback (returning the map unchanged) is dead code in the
composition `insertRecord`. -/
def addFileAt : TreeMap → List String → String → FileEntry → TreeMap
  | m, [], lastName, fe =>
    let node := match mapGet m lastName with
      | some n => n
      | none => Node.mk [] []
    mapSet m lastName (Node.mk (node.files ++ [fe]) node.folders)
  | m, part :: rest, lastName, fe =>
    match mapGet m part with
    | some n => mapSet m part (Node.mk n.files (addFileAt n.folders rest lastName fe))
    | none => m

/-- The body of `build_tree`'s per-object loop (app.py:57-82): split the key
on `'/'`, create the folder chain for `parts[:-1]`, then — if the last
segment is non-empty — append the file entry either under `parts[-2]`
(multi-segment key) or under the reserved `"_root_files"` top-level entry
(single-segment key, app.py:81-82). -/
def insertRecord (tree : TreeMap) (obj : S3Object) : TreeMap :=
  let parts := pySplit obj.Key '/'
  let tree1 := ensureChain tree parts.dropLast
  if parts.getLastD "" != "" then
    if parts.length > 1 then
      addFileAt tree1 parts.dropLast.dropLast (parts.dropLast.getLastD "")
        { key := obj.Key, size := obj.Size }
    else
      let node := match mapGet tree1 "_root_files" with
        | some n => n
        | none => Node.mk [] []
      mapSet tree1 "_root_files"
        (Node.mk (node.files ++ [{ key := obj.Key, size := obj.Size }]) node.folders)
  else tree1

/-- `build_tree(objects)` (app.py:52-85): fold the per-object insertion over
the listing, starting from the empty mapping. -/
def build_tree (objects : List S3Object) : TreeMap :=
  objects.foldl insertRecord []

/-- The node reached by walking `path` through `"folders"` mappings (the
repeated `current = current[part]["folders"]` navigation of `build_tree`)
and then looking up `lastName` — the container addressed by a folder
chain. -/
def nodeAt : TreeMap → List String → String → Option Node
  | m, [], lastName => mapGet m lastName
  | m, part :: rest, lastName =>
    match mapGet m part with
    | some n => nodeAt n.folders rest lastName
    | none => none

/-- The file entry `fe` is present in the node addressed by
`path` / `lastName` in `tree`. -/
def hasFile (tree : TreeMap) (path : List String) (lastName : String) (fe : FileEntry) : Prop :=
  ∃ n, nodeAt tree path lastName = some n ∧ fe ∈ n.files

/-- All segments but the last two of a key's `'/'`-split, or `[]` for a
single-segment key: the walk prefix of the folder chain a file is filed
under by `build_tree`. -/
def keyChainPath (key : String) : List String :=
  let parts := pySplit key '/'
  if parts.length > 1 then parts.dropLast.dropLast else []

/-- The final folder name a file is filed under by `build_tree`:
`parts[-2]` for a multi-segment key, the reserved `"_root_files"` entry for
a single-segment key. -/
def keyChainLast (key : String) : String :=
  let parts := pySplit key '/'
  if parts.length > 1 then parts.dropLast.getLastD "" else "_root_files"

/-- The last segment of a key's `'/'`-split (`parts[-1]` in app.py:71). -/
def keyLastSeg (key : String) : String :=
  (pySplit key '/').getLastD ""

/-- Number of folder entries of the tree, at every level, not counting
entries named `"_root_files"` (which the renderer never displays as a
folder, app.py:103-104) but still counting their children. -/
def countFolders : TreeMap → Nat
  | [] => 0
  | (k, n) :: rest =>
    (if k == "_root_files" then 0 else 1) + countFolders n.folders + countFolders rest
termination_by m => sizeOf m
decreasing_by
  all_goals simp_wf
  cases n
  simp [Node.folders]
  omega

/-- Total number of file entries stored anywhere in the tree. -/
def countFiles : TreeMap → Nat
  | [] => 0
  | (_, n) :: rest => n.files.length + countFiles n.folders + countFiles rest
termination_by m => sizeOf m
decreasing_by
  all_goals simp_wf
  cases n
  simp [Node.folders]
  omega

/-- The `countFolders`-weight contributed by one entry `(k, n)`. -/
def folderWeight (k : String) (n : Node) : Nat :=
  (if k == "_root_files" then 0 else 1) + countFolders n.folders

/-- The `countFiles`-weight contributed by one entry's node. -/
def fileWeight (n : Node) : Nat :=
  n.files.length + countFiles n.folders

/-- The whole folder chain `path ++ [lastName]` is present in the tree. -/
def chainPresent : TreeMap → List String → Prop
  | _, [] => True
  | m, part :: rest => ∃ n, mapGet m part = some n ∧ chainPresent n.folders rest

/-- One entry of the global `download_tasks` dictionary (app.py:41).  The
Python dict starts as `{'cancelled': False, 'zip_buffer': None}`
(app.py:305); `'folder_name'` is absent until completion, hence optional.
A zip buffer is embedded as the list of `(relative_path, data_length)`
pairs written by `zip_file.writestr` (app.py:335). -/
structure TaskEntry where
  cancelled : Bool
  zip_buffer : Option (List (String × Nat))
  folder_name : Option String
deriving DecidableEq

/-- The global `download_tasks` registry (app.py:41), as an
insertion-ordered association list keyed by task id. -/
abbrev TaskMap := List (String × TaskEntry)

/-- Python dict read `download_tasks.get(task_id)` / `task_id in download_tasks`. -/
def lookupTask (m : TaskMap) (task_id : String) : Option TaskEntry :=
  (m.find? (fun p => p.1 == task_id)).map (fun p => p.2)

/-- Python dict write `download_tasks[task_id] = e`: overwrite in place if
present, append otherwise. -/
def setTask : TaskMap → String → TaskEntry → TaskMap
  | [], task_id, e => [(task_id, e)]
  | (k, v) :: rest, task_id, e =>
    if k == task_id then (task_id, e) :: rest else (k, v) :: setTask rest task_id e

/-- Python `if task_id in download_tasks: del download_tasks[task_id]`
(app.py:392-393). -/
def delTask (m : TaskMap) (task_id : String) : TaskMap :=
  m.filter (fun p => p.1 != task_id)

/-- Task-state initialization (app.py:305):
`download_tasks[task_id] = {'cancelled': False, 'zip_buffer': None}`.
Unconditional dict assignment — an entry already present under the same id
is replaced by the fresh state. -/
def createTask (m : TaskMap) (task_id : String) : TaskMap :=
  setTask m task_id { cancelled := false, zip_buffer := none, folder_name := none }

/-- Completion hand-off (app.py:355-356): store the finalized zip buffer
and the display folder name on the existing entry.  (The entry is always
present at this point; a missing entry would be a Python `KeyError`, so the
`none` fallback is dead code in `generate`.) -/
def completeTask (m : TaskMap) (task_id : String) (entries : List (String × Nat))
    (name : String) : TaskMap :=
  match lookupTask m task_id with
  | some t => setTask m task_id { t with zip_buffer := some entries, folder_name := some name }
  | none => m

/-- The cancellation schedule of one generation run: `some c` models a
`POST /cancel-download` for this task id whose write lands between the
generator's cancellation check number `c - 1` and check number `c` (so the
flag reads true from check `c` on); `none` models no cancellation request.
The flag only ever goes from false to true (app.py:406 writes only `True`),
which this encoding builds in. -/
def flagAt (cs : Option Nat) (k : Nat) : Bool :=
  match cs with
  | none => false
  | some c => decide (c ≤ k)

/-- The lasting effect of the cancellation request on the registry entry
(app.py:405-406): if a request landed while the entry existed, the entry's
`cancelled` field is `True` in the final registry. -/
def applyCancelWrite (m : TaskMap) (task_id : String) (cs : Option Nat) : TaskMap :=
  if cs.isSome then
    match lookupTask m task_id with
    | some t => setTask m task_id { t with cancelled := true }
    | none => m
  else m

/-- Progress-stream events (the `data:` JSON payloads of
`download_folder_progress`, app.py:301/319/340/349/361/365). -/
inductive Event where
  | error (msg : String)
  | progress (current total : Nat)
  | cancelled
  | complete (file_count : Nat)
deriving DecidableEq

/-- The per-object loop of `generate` (app.py:315-344).  Arguments:
`fp` the normalized folder path, `fetch` the storage collaborator's
`get_object` (`some dataLen` = the object body has `dataLen` bytes,
`none` = the fetch raised and the object is skipped, app.py:342-344),
`cs` the cancellation schedule, `total` = `len(objects)`; then the
remaining objects, the index of the next cancellation check, and
`file_count` so far.  Returns the emitted events and — unless the loop
exited through a cancellation check — the final `file_count` together with
the zip entries written, in order. -/
def genLoop (fp : String) (fetch : String → Option Nat) (cs : Option Nat) (total : Nat) :
    List S3Object → Nat → Nat → List Event × Option (Nat × List (String × Nat))
  | [], _, fc => ([], some (fc, []))
  | obj :: rest, idx, fc =>
    if flagAt cs idx then ([Event.cancelled], none)
    else if obj.Key == fp then genLoop fp fetch cs total rest (idx + 1) fc
    else
      match fetch obj.Key with
      | none => genLoop fp fetch cs total rest (idx + 1) fc
      | some dataLen =>
        let rel := pyDropLen obj.Key fp
        if rel == "" then genLoop fp fetch cs total rest (idx + 1) fc
        else
          let r := genLoop fp fetch cs total rest (idx + 1) (fc + 1)
          (Event.progress (fc + 1) total :: r.1,
            match r.2 with
            | none => none
            | some (fc', entries) => some (fc', (rel, dataLen) :: entries))

/-- The `generate` generator of `download_folder_progress` (app.py:264-365)
as a pure function.  `listing` is the fully paginated `list_objects_v2`
result for the normalized folder path (app.py:275-296), `fetch` the
per-object `get_object` outcome, `cs` the cancellation schedule, `tasks0`
the registry when the run starts.  Returns the emitted event stream and the
final registry: empty listing → a single error event and no task created
(app.py:300-302); cancellation observed at a loop check (app.py:317-320) or
at the post-loop re-check (app.py:347-350) → terminal `cancelled` event and
no buffer stored; otherwise the finalized buffer and folder name are stored
(app.py:352-356) and `complete` is emitted (app.py:361). -/
def generate (folder_path : String) (task_id : String) (listing : List S3Object)
    (fetch : String → Option Nat) (cs : Option Nat) (tasks0 : TaskMap) :
    List Event × TaskMap :=
  let fp := normalizeFolderPath folder_path
  if listing.length == 0 then
    ([Event.error "No files found in folder"], tasks0)
  else
    let tasks1 := createTask tasks0 task_id
    let r := genLoop fp fetch cs listing.length listing 0 0
    match r.2 with
    | none => (r.1, applyCancelWrite tasks1 task_id cs)
    | some (fc, entries) =>
      if flagAt cs listing.length then
        (r.1 ++ [Event.cancelled], applyCancelWrite tasks1 task_id cs)
      else
        (r.1 ++ [Event.complete fc],
          applyCancelWrite
            (completeTask tasks1 task_id entries (pyBasename (pyRstripSlash folder_path)))
            task_id cs)

/-- The `current` fields of the progress events of a stream, in order. -/
def progressCurrents : List Event → List Nat
  | [] => []
  | Event.progress c _ :: rest => c :: progressCurrents rest
  | _ :: rest => progressCurrents rest

/-- The stored buffer retrievable for a task id, if any. -/
def bufferOf (m : TaskMap) (task_id : String) : Option (List (String × Nat)) :=
  (lookupTask m task_id).bind (fun t => t.zip_buffer)

/-- Outcome of `GET /get-zip/<task_id>` (app.py:369-398). -/
inductive ZipOutcome where
  | notFound
  | notReady
  | file (entries : List (String × Nat)) (name : String)
deriving DecidableEq

/-- `get_zip` (app.py:369-398): 404 `notFound` if the id is absent
(app.py:374-375), 404 `notReady` if the entry has no buffer
(app.py:381-382), otherwise the buffer as `<folder_name>.zip`; the boolean
reports whether the deferred cleanup (eviction) was scheduled — it is
spawned only on the success path (app.py:389-396). -/
def get_zip (m : TaskMap) (task_id : String) : ZipOutcome × Bool :=
  match lookupTask m task_id with
  | none => (ZipOutcome.notFound, false)
  | some t =>
    match t.zip_buffer with
    | none => (ZipOutcome.notReady, false)
    | some buf => (ZipOutcome.file buf (t.folder_name.getD "download"), true)

/-- The body of the deferred `cleanup` thread (app.py:389-394) at the
moment the 60-second delay has elapsed: delete the entry if still present. -/
def cleanupTask (m : TaskMap) (task_id : String) : TaskMap :=
  delTask m task_id

/-- `cancel_download` (app.py:400-409): set the flag if the task exists and
report `'cancelled'`, else report `'not_found'` (HTTP 404). -/
def cancel_download (m : TaskMap) (task_id : String) : TaskMap × Bool :=
  match lookupTask m task_id with
  | some t => (setTask m task_id { t with cancelled := true }, true)
  | none => (m, false)

/-- Zip compression mode (`zipfile.ZIP_STORED` / `zipfile.ZIP_DEFLATED`). -/
inductive Compression where
  | stored
  | deflated
deriving DecidableEq

/-- The generator's archive-format choice (app.py:312):
`ZIP_STORED if len(objects) > 100 else ZIP_DEFLATED`. -/
def generateCompression (objects : List S3Object) : Compression :=
  if objects.length > 100 then Compression.stored else Compression.deflated

/-- The legacy synchronous path's archive-format choice (app.py:465), the
same expression as the generator's. -/
def downloadFolderCompression (objects : List S3Object) : Compression :=
  if objects.length > 100 then Compression.stored else Compression.deflated

/-- The paginated listing for a folder path (app.py:192-211 and
app.py:275-296): all bucket objects whose key starts with the normalized
folder path, in listing order. -/
def listWithPath (bucketObjs : List S3Object) (fp : String) : List S3Object :=
  bucketObjs.filter (fun o => List.isPrefixOf fp.data o.Key.data)

/-- The statistics loop of `folder_info` (app.py:213-239): fold over the
listing, skipping the record whose key equals the folder path itself,
accumulating total size, the direct-file count, and the set of first-level
subfolder names (a Python `set`, embedded as a duplicate-free list). -/
def folderStats (fp : String) :
    List S3Object → Nat → Nat → List String → Nat × Nat × List String
  | [], total_size, file_count, subfolders => (total_size, file_count, subfolders)
  | obj :: rest, total_size, file_count, subfolders =>
    if obj.Key == fp then folderStats fp rest total_size file_count subfolders
    else
      let rel := pyDropLen obj.Key fp
      if rel.data.contains '/' then
        let sub := (pySplit rel '/').headD ""
        folderStats fp rest (total_size + obj.Size) file_count
          (if subfolders.contains sub then subfolders else subfolders ++ [sub])
      else if rel != "" then
        folderStats fp rest (total_size + obj.Size) (file_count + 1) subfolders
      else
        folderStats fp rest (total_size + obj.Size) file_count subfolders

/-- The JSON object returned by `folder_info` (app.py:244-250), minus the
human-readable `total_size` string (floating-point formatting, app.py:44-50,
is outside the embedding). -/
structure FolderInfo where
  path : String
  file_count : Nat
  total_size_bytes : Nat
  subfolder_count : Nat
deriving DecidableEq

/-- `folder_info` (app.py:181-253) over the bucket contents: normalize the
path, take the paginated listing for it, run the statistics loop, and
assemble the response.  Note `file_count` in the response is
`total_files = len(objects)` (app.py:242) — the raw listing length — not
the direct-file counter computed by the loop. -/
def folder_info (bucketObjs : List S3Object) (folder_path : String) : FolderInfo :=
  let fp := normalizeFolderPath folder_path
  let objects := listWithPath bucketObjs fp
  let r := folderStats fp objects 0 0 []
  { path := pyRstripSlash fp
  , file_count := objects.length
  , total_size_bytes := r.1
  , subfolder_count := r.2.2.length }

/-- Lexicographic comparison of character lists by code point — Python's
`<` on strings, used by `sorted` (app.py:102, app.py:131). -/
def charListLt : List Char → List Char → Bool
  | [], [] => false
  | [], _ :: _ => true
  | _ :: _, [] => false
  | a :: as, b :: bs => if a < b then true else if b < a then false else charListLt as bs

/-- Python string `<`. -/
def strLt (a b : String) : Bool := charListLt a.data b.data

/-- Sorted insertion of one entry by folder name (stable on ties). -/
def insertByName (p : String × Node) : TreeMap → TreeMap
  | [] => [p]
  | q :: rest => if strLt p.1 q.1 then p :: q :: rest else q :: insertByName p rest

/-- `sorted(tree.items())` (app.py:102): ascending by name.  (Dict keys are
unique, so Python's tuple tie-break on the value never fires.) -/
def sortByName (m : TreeMap) : TreeMap := m.foldr insertByName []

/-- Sorted insertion of one file entry by full key (stable on ties). -/
def insertFileByKey (fe : FileEntry) : List FileEntry → List FileEntry
  | [] => [fe]
  | g :: rest => if strLt fe.key g.key then fe :: g :: rest else g :: insertFileByKey fe rest

/-- `sorted(content["files"], key=lambda x: x['key'])` (app.py:131). -/
def sortFilesByKey (fs : List FileEntry) : List FileEntry := fs.foldr insertFileByKey []

/-- The display-relevant fragments emitted by `render_tree`, in emission
order: a `fileLink` for each `<li class="file">` line (app.py:99,
app.py:135), a `folderStart` for each folder header with its download/info
actions (app.py:111-125), and a `folderEnd` for the closing tags
(app.py:143-144). -/
inductive RItem where
  | fileLink (key : String) (size : Nat)
  | folderStart (name : String) (folder_path : String)
  | folderEnd
deriving DecidableEq

/-- The root-files block of `render_tree` (app.py:93-99): if the level's
mapping has a `"_root_files"` entry, emit its files as plain file lines. -/
def rootFileItems (tree : TreeMap) : List RItem :=
  match mapGet tree "_root_files" with
  | some n => n.files.map (fun fe => RItem.fileLink fe.key fe.size)
  | none => []

/-- The folder loop of `render_tree` (app.py:102-144) over the sorted
entries of one level: skip the `"_root_files"` entry (app.py:103-104);
for every other entry emit the folder header, its files sorted by key, the
recursively rendered subfolders when non-empty (the recursive
`render_tree` call, app.py:139-141, which renders that level's own
`"_root_files"` files first and then its sorted folders), and the closing
tags. -/
def renderFolders : TreeMap → String → Nat → String → List RItem
  | [], _, _, _ => []
  | (folder_name, content) :: rest, pfx, level, parent_path =>
    if folder_name == "_root_files" then renderFolders rest pfx level parent_path
    else
      let folder_path := if parent_path == "" then folder_name
        else parent_path ++ "/" ++ folder_name
      RItem.folderStart folder_name folder_path
        :: ((sortFilesByKey content.files).map (fun fe => RItem.fileLink fe.key fe.size)
          ++ (if content.folders.isEmpty then []
              else rootFileItems content.folders
                ++ renderFolders (sortByName content.folders)
                    (pfx ++ "_" ++ folder_name) (level + 1) folder_path)
          ++ [RItem.folderEnd])
        ++ renderFolders rest pfx level parent_path
termination_by m _ _ _ => sizeOf m
decreasing_by
  all_goals simp_wf
  all_goals try (
    have hins : ∀ (p : String × Node) (m : TreeMap),
        sizeOf (insertByName p m) = 1 + sizeOf p + sizeOf m := by
      intro p m
      induction m with
      | nil => simp [insertByName]
      | cons q rest ih =>
        simp only [insertByName]
        by_cases h : strLt p.1 q.1
        · simp [h]
          try omega
        · simp [h, ih]
          try omega
    have hsort : ∀ m : TreeMap, sizeOf (sortByName m) = sizeOf m := by
      intro m
      induction m with
      | nil => rfl
      | cons q rest ih =>
        show sizeOf (insertByName q (sortByName rest)) = _
        rw [hins, ih]
        simp
    have hfold : sizeOf content.folders < sizeOf content := by
      cases content
      simp [Node.folders]
    rw [hsort])
  all_goals omega

/-- `render_tree(tree)` (app.py:87-147), reduced to its emitted fragment
sequence: the level's root files first (app.py:93-99), then the sorted
folder loop. -/
def renderTree (tree : TreeMap) (pfx : String) (level : Nat) (parent_path : String) :
    List RItem :=
  rootFileItems tree ++ renderFolders (sortByName tree) pfx level parent_path

/-! ## Registry lemmas -/

theorem lookupTask_setTask_self (m : TaskMap) (task_id : String) (e : TaskEntry) :
    lookupTask (setTask m task_id e) task_id = some e := by
  induction m with
  | nil => simp [setTask, lookupTask]
  | cons p rest ih =>
    by_cases h : p.1 == task_id
    · cases p
      simp_all [setTask, lookupTask, List.find?]
    · cases p
      simp_all [setTask, lookupTask, List.find?]

theorem lookupTask_setTask_ne (m : TaskMap) (task_id other : String) (e : TaskEntry)
    (h : other ≠ task_id) :
    lookupTask (setTask m task_id e) other = lookupTask m other := by
  have hb : (task_id == other) = false := by
    simp only [beq_eq_false_iff_ne, ne_eq]
    exact fun hh => h hh.symm
  induction m with
  | nil =>
    simp [setTask, lookupTask, List.find?, hb]
  | cons p rest ih =>
    obtain ⟨k, v⟩ := p
    by_cases hk : k = task_id
    · subst hk
      simp [setTask, beq_self_eq_true, lookupTask, List.find?, hb]
    · have hkb : (k == task_id) = false := by
        simpa only [beq_eq_false_iff_ne, ne_eq] using hk
      simp only [setTask, hkb, Bool.false_eq_true, if_false]
      by_cases ho : k = other
      · subst ho
        simp [lookupTask, List.find?, beq_self_eq_true]
      · have hob : (k == other) = false := by
          simpa only [beq_eq_false_iff_ne, ne_eq] using ho
        simp only [lookupTask, List.find?, hob] at ih ⊢
        exact ih

theorem lookupTask_delTask_self (m : TaskMap) (task_id : String) :
    lookupTask (delTask m task_id) task_id = none := by
  induction m with
  | nil => simp [delTask, lookupTask]
  | cons p rest ih =>
    obtain ⟨k, v⟩ := p
    by_cases hk : k = task_id
    · subst hk
      simp only [delTask, List.filter, bne, beq_self_eq_true, Bool.not_true] at ih ⊢
      exact ih
    · have hkb : (k == task_id) = false := by
        simpa only [beq_eq_false_iff_ne, ne_eq] using hk
      simp only [delTask, List.filter, bne, hkb, Bool.not_false] at ih ⊢
      simp only [lookupTask, List.find?, hkb] at ih ⊢
      exact ih

theorem lookupTask_applyCancelWrite (m : TaskMap) (task_id : String) (cs : Option Nat) :
    lookupTask (applyCancelWrite m task_id cs) task_id
      = (lookupTask m task_id).map
          (fun t => if cs.isSome then { t with cancelled := true } else t) := by
  unfold applyCancelWrite
  by_cases hc : cs.isSome
  · cases hl : lookupTask m task_id
    · simp [hc, hl]
    · simp [hc, hl, lookupTask_setTask_self]
  · cases hl : lookupTask m task_id <;> simp [hc, hl]

theorem bufferOf_applyCancelWrite (m : TaskMap) (task_id : String) (cs : Option Nat) :
    bufferOf (applyCancelWrite m task_id cs) task_id = bufferOf m task_id := by
  unfold bufferOf
  rw [lookupTask_applyCancelWrite]
  cases lookupTask m task_id
  · rfl
  · by_cases hc : cs.isSome <;> simp [hc]

theorem bufferOf_createTask (m : TaskMap) (task_id : String) :
    bufferOf (createTask m task_id) task_id = none := by
  unfold bufferOf createTask
  rw [lookupTask_setTask_self]
  rfl

/-! ## C2 — eviction makes a task unretrievable -/

/-- C2: once the scheduled eviction's delay has elapsed and the deferred
cleanup runs for a task id, the entry is removed from the registry and a
subsequent `get_zip` for that id answers 404 `notFound` — for every
registry state, so in particular also for an entry whose buffer was never
fetched. -/
theorem C2_eviction_unretrievable (m : TaskMap) (task_id : String) :
    lookupTask (cleanupTask m task_id) task_id = none ∧
      get_zip (cleanupTask m task_id) task_id = (ZipOutcome.notFound, false) := by
  have h := lookupTask_delTask_self m task_id
  refine ⟨h, ?_⟩
  unfold get_zip cleanupTask
  unfold cleanupTask at h
  rw [h]

/-! ## C3 — duplicate task creation -/

/-- C3 counterexample: with task `"t1"` already present (cancelled, with a
stored buffer), re-creating `"t1"` does not fail — it replaces the entry
and resets it to `{cancelled: False, zip_buffer: None}`, contradicting the
claim that creation fails with `DuplicateTask` and leaves the entry
untouched. -/
theorem C3_counterexample :
    createTask [("t1", ⟨true, some [("x.txt", 3)], some "f"⟩)] "t1"
        = [("t1", ⟨false, none, none⟩)] ∧
      lookupTask (createTask [("t1", ⟨true, some [("x.txt", 3)], some "f"⟩)] "t1") "t1"
        ≠ lookupTask [("t1", ⟨true, some [("x.txt", 3)], some "f"⟩)] "t1" := by
  constructor
  · rfl
  · decide

/-- C3 amended: creating a task whose id is already present does not fail;
the existing entry is unconditionally replaced by the fresh state
`{cancelled: False, zip_buffer: None}`, while entries under other ids are
unchanged. -/
theorem C3_create_resets (m : TaskMap) (task_id other : String)
    (h : other ≠ task_id) :
    lookupTask (createTask m task_id) task_id
        = some { cancelled := false, zip_buffer := none, folder_name := none } ∧
      lookupTask (createTask m task_id) other = lookupTask m other := by
  refine ⟨lookupTask_setTask_self m task_id _, ?_⟩
  exact lookupTask_setTask_ne m task_id other _ (by simpa using h)

/-- Witness for `C3_create_resets` at a concrete registry and ids. -/
theorem C3_create_resets_witness :
    ("t2" : String) ≠ "t1" ∧
      lookupTask (createTask [("t2", ⟨true, none, none⟩)] "t1") "t1"
          = some { cancelled := false, zip_buffer := none, folder_name := none } ∧
        lookupTask (createTask [("t2", ⟨true, none, none⟩)] "t1") "t2"
          = lookupTask [("t2", ⟨true, none, none⟩)] "t2" :=
  ⟨by decide, C3_create_resets [("t2", ⟨true, none, none⟩)] "t1" "t2" (by decide)⟩

/-! ## C8 — empty listing -/

/-- C8: when the (normalized) folder path's listing is empty, the
generation run emits exactly one terminal error event and leaves the task
registry exactly as it was — in particular no entry is created or stored
for the supplied task id (app.py:300-302 precedes the task creation at
app.py:305). -/
theorem C8_empty_listing (folder_path task_id : String) (fetch : String → Option Nat)
    (cs : Option Nat) (tasks0 : TaskMap) :
    generate folder_path task_id [] fetch cs tasks0
      = ([Event.error "No files found in folder"], tasks0) := rfl

/-! ## C9 — archive format choice -/

/-- C9: the archive format is a deterministic function of the listing's
object count — stored (no compression) exactly when the listing has more
than 100 objects, deflated otherwise — and the progress-driven generator
(app.py:312) and the legacy synchronous path (app.py:465) make the
identical choice. -/
theorem C9_compression_choice (objects : List S3Object) :
    (generateCompression objects = Compression.stored ↔ 100 < objects.length) ∧
      downloadFolderCompression objects = generateCompression objects ∧
      ∀ objects' : List S3Object, objects'.length = objects.length →
        generateCompression objects' = generateCompression objects := by
  refine ⟨?_, rfl, ?_⟩
  · unfold generateCompression
    by_cases h : 100 < objects.length <;> simp [h, Nat.lt_irrefl]
  · intro objects' hlen
    unfold generateCompression
    rw [hlen]

/-- Witness for `C9_compression_choice` at two concrete equal-length
listings. -/
theorem C9_compression_choice_witness :
    ([⟨"b", 2⟩] : List S3Object).length = [(⟨"a", 1⟩ : S3Object)].length ∧
      generateCompression [⟨"b", 2⟩] = generateCompression [⟨"a", 1⟩] :=
  ⟨by decide, (C9_compression_choice [⟨"a", 1⟩]).2.2 [⟨"b", 2⟩] (by decide)⟩

/-! ## C7 — folder-info statistics -/

theorem isPrefixOf_self_charList (l : List Char) : List.isPrefixOf l l = true := by
  induction l with
  | nil => rfl
  | cons c rest ih => simp [List.isPrefixOf, ih]

theorem folderStats_skips_marker (p : String) (sz : Nat) (objs : List S3Object)
    (a b : Nat) (c : List String) :
    folderStats (normalizeFolderPath p)
        ({ Key := normalizeFolderPath p, Size := sz } :: objs) a b c
      = folderStats (normalizeFolderPath p) objs a b c := by
  simp [folderStats, beq_self_eq_true]

/-- C7: on the three-object listing, `folder-info` for prefix `a/` answers
`file_count = 2`, `subfolder_count = 1`, `total_size_bytes = 30`; and for
every listing, a record whose key equals the normalized prefix itself
(app.py:221-223) contributes nothing to the size and subfolder
accumulation. -/
theorem C7_folder_info_scenario (objs : List S3Object) (p : String) (sz : Nat) :
    folder_info [⟨"a/b.txt", 10⟩, ⟨"a/c/d.txt", 20⟩, ⟨"root.txt", 5⟩] "a/"
        = { path := "a", file_count := 2, total_size_bytes := 30, subfolder_count := 1 } ∧
      (folder_info ({ Key := normalizeFolderPath p, Size := sz } :: objs) p).total_size_bytes
        = (folder_info objs p).total_size_bytes ∧
      (folder_info ({ Key := normalizeFolderPath p, Size := sz } :: objs) p).subfolder_count
        = (folder_info objs p).subfolder_count := by
  refine ⟨rfl, ?_, ?_⟩ <;>
  · simp only [folder_info, listWithPath, List.filter, isPrefixOf_self_charList,
      folderStats_skips_marker]

/-! ## Generator lemmas -/

theorem progressCurrents_append (a b : List Event) :
    progressCurrents (a ++ b) = progressCurrents a ++ progressCurrents b := by
  induction a with
  | nil => rfl
  | cons e rest ih =>
    cases e <;> simp [progressCurrents, ih]

/-- Master lemma for the per-object loop: the emitted `current` values form
the contiguous run `fc+1, fc+2, …` of length `j` for some `j` bounded by
the number of remaining objects; when the loop completes, the final
`file_count` is `fc + j` and exactly `j` zip entries were written; when the
loop exits through a cancellation check, the event stream ends in
`cancelled`. -/
theorem genLoop_spec (fp : String) (fetch : String → Option Nat) (cs : Option Nat)
    (total : Nat) :
    ∀ (objs : List S3Object) (idx fc : Nat),
      ∃ j, progressCurrents (genLoop fp fetch cs total objs idx fc).1
            = List.range' (fc + 1) j ∧
        j ≤ objs.length ∧
        (∀ fc' entries, (genLoop fp fetch cs total objs idx fc).2 = some (fc', entries) →
          fc' = fc + j ∧ entries.length = j) ∧
        ((genLoop fp fetch cs total objs idx fc).2 = none →
          (genLoop fp fetch cs total objs idx fc).1.getLast? = some Event.cancelled) := by
  intro objs
  induction objs with
  | nil =>
    intro idx fc
    refine ⟨0, rfl, Nat.le_refl 0, ?_, ?_⟩
    · intro fc' entries h
      simp [genLoop] at h
      simp [h.1.symm, h.2.symm]
    · intro h
      simp [genLoop] at h
  | cons obj rest ih =>
    intro idx fc
    by_cases hflag : flagAt cs idx = true
    · refine ⟨0, ?_, Nat.zero_le _, ?_, ?_⟩
      · simp [genLoop, hflag, progressCurrents]
      · intro fc' entries h
        simp [genLoop, hflag] at h
      · intro _
        simp [genLoop, hflag]
    · have hflag' : flagAt cs idx = false := by
        simpa using hflag
      by_cases hkey : (obj.Key == fp) = true
      · obtain ⟨j, h1, h2, h3, h4⟩ := ih (idx + 1) fc
        refine ⟨j, ?_, Nat.le_succ_of_le h2, ?_, ?_⟩ <;>
          simpa [genLoop, hflag', hkey] using by assumption
      · have hkey' : (obj.Key == fp) = false := by simpa using hkey
        cases hfetch : fetch obj.Key with
        | none =>
          obtain ⟨j, h1, h2, h3, h4⟩ := ih (idx + 1) fc
          refine ⟨j, ?_, Nat.le_succ_of_le h2, ?_, ?_⟩ <;>
            simpa [genLoop, hflag', hkey', hfetch] using by assumption
        | some dataLen =>
          by_cases hrel : (pyDropLen obj.Key fp == "") = true
          · obtain ⟨j, h1, h2, h3, h4⟩ := ih (idx + 1) fc
            refine ⟨j, ?_, Nat.le_succ_of_le h2, ?_, ?_⟩ <;>
              simpa [genLoop, hflag', hkey', hfetch, hrel] using by assumption
          · have hrel' : (pyDropLen obj.Key fp == "") = false := by simpa using hrel
            obtain ⟨j, h1, h2, h3, h4⟩ := ih (idx + 1) (fc + 1)
            refine ⟨j + 1, ?_, Nat.succ_le_succ h2, ?_, ?_⟩
            · simp only [genLoop, hflag', hkey', hfetch, hrel', Bool.false_eq_true,
                if_false, progressCurrents, List.range'_succ]
              rw [h1]
            · intro fc' entries h
              simp only [genLoop, hflag', hkey', hfetch, hrel', Bool.false_eq_true,
                if_false] at h
              cases hr : (genLoop fp fetch cs total rest (idx + 1) (fc + 1)).2 with
              | none => rw [hr] at h; simp at h
              | some pr =>
                rw [hr] at h
                obtain ⟨fc0, es⟩ := pr
                simp only [Option.some.injEq] at h
                obtain ⟨hfc, hes⟩ := Prod.mk.injEq .. ▸ h
                have := h3 fc0 es hr
                constructor
                · rw [← hfc, this.1]
                  omega
                · rw [← hes]
                  simp [this.2]
            · intro h
              simp only [genLoop, hflag', hkey', hfetch, hrel', Bool.false_eq_true,
                if_false] at h ⊢
              cases hr : (genLoop fp fetch cs total rest (idx + 1) (fc + 1)).2 with
              | some pr => rw [hr] at h; cases pr; simp at h
              | none =>
                have hlast := h4 hr
                cases hl : (genLoop fp fetch cs total rest (idx + 1) (fc + 1)).1 with
                | nil => rw [hl] at hlast; simp at hlast
                | cons e es =>
                  rw [hl] at hlast
                  simpa [List.getLast?_cons_cons] using hlast


theorem bufferOf_completeTask (m : TaskMap) (task_id : String)
    (entries : List (String × Nat)) (name : String) (t : TaskEntry)
    (hl : lookupTask m task_id = some t) :
    bufferOf (completeTask m task_id entries name) task_id = some entries := by
  unfold completeTask
  rw [hl]
  unfold bufferOf
  rw [lookupTask_setTask_self]
  rfl

theorem lookupTask_createTask (m : TaskMap) (task_id : String) :
    lookupTask (createTask m task_id) task_id
      = some { cancelled := false, zip_buffer := none, folder_name := none } :=
  lookupTask_setTask_self m task_id _

/-- In both cancelled exits (mid-loop check and post-loop re-check) the
final registry is the created entry with only the cancellation write
applied: no buffer is ever stored. -/
theorem generate_cancelled_registry (folder_path task_id : String)
    (listing : List S3Object) (fetch : String → Option Nat) (c : Nat) (tasks0 : TaskMap)
    (hne : listing ≠ []) (hc : c ≤ listing.length) :
    (generate folder_path task_id listing fetch (some c) tasks0).2
      = applyCancelWrite (createTask tasks0 task_id) task_id (some c) := by
  cases listing with
  | nil => exact absurd rfl hne
  | cons o os =>
    have hfl : flagAt (some c) (o :: os).length = true := by
      simp only [flagAt, decide_eq_true_eq]
      exact hc
    have hne0 : ((o :: os).length == 0) = false := by simp
    simp only [generate, hne0, Bool.false_eq_true, if_false]
    rcases hgen : genLoop (normalizeFolderPath folder_path) fetch (some c)
        (o :: os).length (o :: os) 0 0 with ⟨evs, r2⟩
    cases r2 with
    | none => rfl
    | some pr =>
      obtain ⟨fc0, entries⟩ := pr
      simp only []
      rw [if_pos hfl]

theorem lookup_cancelled_created (tasks0 : TaskMap) (task_id : String) (c : Nat) :
    lookupTask (applyCancelWrite (createTask tasks0 task_id) task_id (some c)) task_id
      = some { cancelled := true, zip_buffer := none, folder_name := none } := by
  rw [lookupTask_applyCancelWrite, lookupTask_createTask]
  rfl

/-! ## C1 — cancellation stores no buffer -/

/-- C1: if a cancellation request for the task id lands before the
generator's final cancellation re-check (check index `listing.length`,
i.e. at any point before the generator finishes), the registry never ends
up holding a buffer for that task, and — when the listing was non-empty, so
the run got past the empty-listing exit — the event stream ends with the
`cancelled` event emitted by the check that observed the flag
(app.py:316-320, app.py:346-350). -/
theorem C1_cancellation_no_buffer (folder_path task_id : String)
    (listing : List S3Object) (fetch : String → Option Nat) (c : Nat) (tasks0 : TaskMap)
    (h0 : lookupTask tasks0 task_id = none) (hc : c ≤ listing.length) :
    bufferOf (generate folder_path task_id listing fetch (some c) tasks0).2 task_id = none ∧
      (listing ≠ [] →
        (generate folder_path task_id listing fetch (some c) tasks0).1.getLast?
          = some Event.cancelled) := by
  constructor
  · cases listing with
    | nil =>
      simp only [generate, List.length_nil, beq_self_eq_true, if_true]
      unfold bufferOf
      rw [h0]
      rfl
    | cons o os =>
      rw [generate_cancelled_registry folder_path task_id (o :: os) fetch c tasks0
        (by simp) hc]
      unfold bufferOf
      rw [lookup_cancelled_created]
      rfl
  · intro hne
    cases listing with
    | nil => exact absurd rfl hne
    | cons o os =>
      have hfl : flagAt (some c) (o :: os).length = true := by
        simp only [flagAt, decide_eq_true_eq]
        exact hc
      have hne0 : ((o :: os).length == 0) = false := by simp
      obtain ⟨j, h1, h2, h3, h4⟩ := genLoop_spec (normalizeFolderPath folder_path)
        fetch (some c) (o :: os).length (o :: os) 0 0
      simp only [generate, hne0, Bool.false_eq_true, if_false]
      rcases hgen : genLoop (normalizeFolderPath folder_path) fetch (some c)
          (o :: os).length (o :: os) 0 0 with ⟨evs, r2⟩
      rw [hgen] at h4
      simp only [] at h4 ⊢
      cases r2 with
      | none => exact h4 rfl
      | some pr =>
        obtain ⟨fc0, entries⟩ := pr
        simp only []
        rw [if_pos hfl]
        exact List.getLast?_concat _

/-- Witness for `C1_cancellation_no_buffer` at a concrete one-object run
cancelled at check 0. -/
theorem C1_cancellation_no_buffer_witness :
    lookupTask ([] : TaskMap) "t1" = none ∧ 0 ≤ [(⟨"a/b.txt", 10⟩ : S3Object)].length ∧
      bufferOf (generate "a" "t1" [⟨"a/b.txt", 10⟩] (fun _ => some 10) (some 0) []).2 "t1"
        = none :=
  ⟨rfl, by decide,
    (C1_cancellation_no_buffer "a" "t1" [⟨"a/b.txt", 10⟩] (fun _ => some 10) 0 []
      rfl (by decide)).1⟩

/-! ## C4 — lifecycle of the task entry -/

/-- C4 counterexample: a one-object run whose cancellation is observed at
the first check leaves the entry `{cancelled: True, zip_buffer: None}` in
the registry — it is not deleted immediately — and a subsequent retrieval
answers 404 `notReady` (app.py:381-382), not `notFound`, contradicting the
claimed immediate deletion on cancellation. -/
theorem C4_counterexample :
    lookupTask (generate "a" "t1" [⟨"a/b.txt", 10⟩] (fun _ => some 10) (some 0) []).2 "t1"
        = some { cancelled := true, zip_buffer := none, folder_name := none } ∧
      (get_zip (generate "a" "t1" [⟨"a/b.txt", 10⟩] (fun _ => some 10) (some 0) []).2
          "t1").1 = ZipOutcome.notReady := by
  constructor <;> rfl

/-- C4 amended: the entry is deleted when the deferred cleanup scheduled by
a successful retrieval fires (60 time units later); a cancelled generation
does NOT delete the entry — it remains, cancelled and bufferless, so a
later retrieval for that id answers `notReady`, not `notFound`. -/
theorem C4_deletion_semantics (m : TaskMap) (folder_path task_id : String)
    (listing : List S3Object) (fetch : String → Option Nat) (c : Nat) (tasks0 : TaskMap)
    (hne : listing ≠ []) (hc : c ≤ listing.length) :
    lookupTask (cleanupTask m task_id) task_id = none ∧
      lookupTask (generate folder_path task_id listing fetch (some c) tasks0).2 task_id
        = some { cancelled := true, zip_buffer := none, folder_name := none } ∧
      (get_zip (generate folder_path task_id listing fetch (some c) tasks0).2 task_id).1
        = ZipOutcome.notReady := by
  refine ⟨lookupTask_delTask_self m task_id, ?_, ?_⟩ <;>
    rw [generate_cancelled_registry folder_path task_id listing fetch c tasks0 hne hc]
  · exact lookup_cancelled_created tasks0 task_id c
  · unfold get_zip
    rw [lookup_cancelled_created]

/-- Witness for `C4_deletion_semantics` at a concrete cancelled run. -/
theorem C4_deletion_semantics_witness :
    ([(⟨"a/b.txt", 10⟩ : S3Object)] ≠ []) ∧ 0 ≤ [(⟨"a/b.txt", 10⟩ : S3Object)].length ∧
      lookupTask (cleanupTask [("x", ⟨false, none, none⟩)] "x") "x" = none ∧
        lookupTask (generate "a" "t1" [⟨"a/b.txt", 10⟩] (fun _ => some 10) (some 0) []).2
            "t1" = some { cancelled := true, zip_buffer := none, folder_name := none } :=
  ⟨by decide, by decide,
    (C4_deletion_semantics [("x", ⟨false, none, none⟩)] "a" "t1" [⟨"a/b.txt", 10⟩]
        (fun _ => some 10) 0 [] (by decide) (by decide)).1,
    (C4_deletion_semantics [("x", ⟨false, none, none⟩)] "a" "t1" [⟨"a/b.txt", 10⟩]
        (fun _ => some 10) 0 [] (by decide) (by decide)).2.1⟩

/-! ## C6 — progress monotonicity and finalize-before-complete -/

/-- C6: within one generation run the emitted `current` values are strictly
increasing and never exceed the run's `total` (the listing's object count),
and whenever the terminal `complete(file_count)` event is emitted the
registry already holds the finalized buffer, whose entry count is exactly
the reported `file_count` (the buffer is stored at app.py:355 before the
`complete` event is yielded at app.py:361). -/
theorem C6_progress_monotonic (folder_path task_id : String) (listing : List S3Object)
    (fetch : String → Option Nat) (cs : Option Nat) (tasks0 : TaskMap) :
    List.Pairwise (· < ·)
        (progressCurrents (generate folder_path task_id listing fetch cs tasks0).1) ∧
      (∀ cur ∈ progressCurrents (generate folder_path task_id listing fetch cs tasks0).1,
        cur ≤ listing.length) ∧
      ∀ fc, (generate folder_path task_id listing fetch cs tasks0).1.getLast?
          = some (Event.complete fc) →
        ∃ entries,
          bufferOf (generate folder_path task_id listing fetch cs tasks0).2 task_id
              = some entries ∧
            entries.length = fc := by
  cases listing with
  | nil =>
    refine ⟨?_, ?_, ?_⟩
    · simp [generate, progressCurrents]
    · simp [generate, progressCurrents]
    · intro fc h
      simp [generate] at h
  | cons o os =>
    have hne0 : ((o :: os).length == 0) = false := by simp
    obtain ⟨j, h1, h2, h3, h4⟩ := genLoop_spec (normalizeFolderPath folder_path)
      fetch cs (o :: os).length (o :: os) 0 0
    simp only [generate, hne0, Bool.false_eq_true, if_false]
    rcases hgen : genLoop (normalizeFolderPath folder_path) fetch cs
        (o :: os).length (o :: os) 0 0 with ⟨evs, r2⟩
    rw [hgen] at h1 h3 h4
    simp only [] at h1 h3 h4 ⊢
    cases r2 with
    | none =>
      refine ⟨?_, ?_, ?_⟩
      · simp only []
        rw [h1]
        exact List.pairwise_lt_range' 1 j
      · simp only []
        rw [h1]
        intro cur hcur
        have := List.mem_range'_1.mp hcur
        omega
      · intro fc h
        simp only [] at h
        rw [h4 rfl] at h
        simp at h
    | some pr =>
      obtain ⟨fc0, entries⟩ := pr
      simp only []
      have hj := h3 fc0 entries rfl
      by_cases hfl : flagAt cs (o :: os).length = true
      · rw [if_pos hfl]
        refine ⟨?_, ?_, ?_⟩
        · rw [progressCurrents_append, h1]
          simp only [progressCurrents, List.append_nil]
          exact List.pairwise_lt_range' 1 j
        · rw [progressCurrents_append, h1]
          intro cur hcur
          simp only [progressCurrents, List.append_nil] at hcur
          have := List.mem_range'_1.mp hcur
          omega
        · intro fc h
          rw [List.getLast?_concat] at h
          simp at h
      · rw [if_neg hfl]
        refine ⟨?_, ?_, ?_⟩
        · rw [progressCurrents_append, h1]
          simp only [progressCurrents, List.append_nil]
          exact List.pairwise_lt_range' 1 j
        · rw [progressCurrents_append, h1]
          intro cur hcur
          simp only [progressCurrents, List.append_nil] at hcur
          have := List.mem_range'_1.mp hcur
          omega
        · intro fc h
          rw [List.getLast?_concat] at h
          simp only [Option.some.injEq, Event.complete.injEq] at h
          refine ⟨entries, ?_, ?_⟩
          · rw [bufferOf_applyCancelWrite]
            exact bufferOf_completeTask _ task_id entries _ _
              (lookupTask_createTask tasks0 task_id)
          · obtain ⟨hj1, hj2⟩ := hj
            omega

/-- Witness for `C6_progress_monotonic` on a concrete completed run. -/
theorem C6_progress_monotonic_witness :
    (generate "a" "t9" [⟨"a/b.txt", 10⟩, ⟨"a/c/d.txt", 20⟩] (fun _ => some 7)
          none []).1.getLast? = some (Event.complete 2) ∧
      ∃ entries,
        bufferOf (generate "a" "t9" [⟨"a/b.txt", 10⟩, ⟨"a/c/d.txt", 20⟩]
              (fun _ => some 7) none []).2 "t9" = some entries ∧
          entries.length = 2 :=
  ⟨rfl,
    (C6_progress_monotonic "a" "t9" [⟨"a/b.txt", 10⟩, ⟨"a/c/d.txt", 20⟩]
        (fun _ => some 7) none []).2.2 2 rfl⟩

/-! ## Tree-map lemmas for `build_tree` -/

theorem files_mk (fs : List FileEntry) (sub : TreeMap) : (Node.mk fs sub).files = fs := rfl

theorem folders_mk (fs : List FileEntry) (sub : TreeMap) :
    (Node.mk fs sub).folders = sub := rfl

theorem mapGet_cons (k' : String) (n' : Node) (rest : TreeMap) (k : String) :
    mapGet ((k', n') :: rest) k = if k' == k then some n' else mapGet rest k := by
  by_cases h : (k' == k) = true <;> simp [mapGet, List.find?, h]

theorem mapGet_mapSet_self (m : TreeMap) (k : String) (v : Node) :
    mapGet (mapSet m k v) k = some v := by
  induction m with
  | nil => simp [mapSet, mapGet, List.find?]
  | cons p rest ih =>
    obtain ⟨k', n'⟩ := p
    by_cases h : (k' == k) = true
    · simp [mapSet, h, mapGet, List.find?]
    · have h' : (k' == k) = false := by simpa using h
      simp only [mapSet, h', Bool.false_eq_true, if_false]
      rw [mapGet_cons, if_neg (by simp [h']), ih]

theorem mapGet_mapSet_ne (m : TreeMap) (k k' : String) (v : Node) (h : k' ≠ k) :
    mapGet (mapSet m k v) k' = mapGet m k' := by
  have hb : (k == k') = false := by
    simp only [beq_eq_false_iff_ne, ne_eq]
    exact fun hh => h hh.symm
  induction m with
  | nil => simp [mapSet, mapGet, List.find?, hb]
  | cons p rest ih =>
    obtain ⟨k0, n0⟩ := p
    by_cases h0 : (k0 == k) = true
    · simp only [mapSet, h0, if_true]
      rw [mapGet_cons, mapGet_cons, if_neg (by simp [hb])]
      have : k0 = k := by simpa using h0
      subst this
      rw [if_neg (by simp [h0, hb])]
    · have h0' : (k0 == k) = false := by simpa using h0
      simp only [mapSet, h0', Bool.false_eq_true, if_false]
      rw [mapGet_cons, mapGet_cons]
      by_cases hk0 : (k0 == k') = true
      · rw [if_pos hk0, if_pos hk0]
      · have hk0' : (k0 == k') = false := by simpa using hk0
        rw [if_neg (by simp [hk0']), if_neg (by simp [hk0']), ih]

theorem countFolders_cons (k : String) (n : Node) (rest : TreeMap) :
    countFolders ((k, n) :: rest) = folderWeight k n + countFolders rest := by
  by_cases h : (k == "_root_files") = true <;>
    · simp [countFolders, folderWeight, h]
      try omega

theorem countFiles_cons (k : String) (n : Node) (rest : TreeMap) :
    countFiles ((k, n) :: rest) = fileWeight n + countFiles rest := by
  simp [countFiles, fileWeight]
  try omega

theorem countFolders_mapSet_present (m : TreeMap) (k : String) (v n0 : Node)
    (h : mapGet m k = some n0) :
    countFolders (mapSet m k v) + folderWeight k n0
      = countFolders m + folderWeight k v := by
  induction m with
  | nil => simp [mapGet] at h
  | cons p rest ih =>
    obtain ⟨k', n'⟩ := p
    rw [mapGet_cons] at h
    by_cases hk : (k' == k) = true
    · rw [if_pos hk] at h
      obtain rfl : n' = n0 := by simpa using h
      have : k' = k := by simpa using hk
      subst this
      simp only [mapSet, beq_self_eq_true, if_true]
      rw [countFolders_cons, countFolders_cons]
      omega
    · have hk' : (k' == k) = false := by simpa using hk
      rw [if_neg (by simp [hk'])] at h
      simp only [mapSet, hk', Bool.false_eq_true, if_false]
      rw [countFolders_cons, countFolders_cons]
      have := ih h
      omega

theorem countFolders_mapSet_absent (m : TreeMap) (k : String) (v : Node)
    (h : mapGet m k = none) :
    countFolders (mapSet m k v) = countFolders m + folderWeight k v := by
  induction m with
  | nil =>
    simp only [mapSet]
    rw [countFolders_cons]
    simp [countFolders]
  | cons p rest ih =>
    obtain ⟨k', n'⟩ := p
    rw [mapGet_cons] at h
    by_cases hk : (k' == k) = true
    · rw [if_pos hk] at h
      simp at h
    · have hk' : (k' == k) = false := by simpa using hk
      rw [if_neg (by simp [hk'])] at h
      simp only [mapSet, hk', Bool.false_eq_true, if_false]
      rw [countFolders_cons, countFolders_cons, ih h]
      omega

theorem countFiles_mapSet_present (m : TreeMap) (k : String) (v n0 : Node)
    (h : mapGet m k = some n0) :
    countFiles (mapSet m k v) + fileWeight n0 = countFiles m + fileWeight v := by
  induction m with
  | nil => simp [mapGet] at h
  | cons p rest ih =>
    obtain ⟨k', n'⟩ := p
    rw [mapGet_cons] at h
    by_cases hk : (k' == k) = true
    · rw [if_pos hk] at h
      obtain rfl : n' = n0 := by simpa using h
      have : k' = k := by simpa using hk
      subst this
      simp only [mapSet, beq_self_eq_true, if_true]
      rw [countFiles_cons, countFiles_cons]
      omega
    · have hk' : (k' == k) = false := by simpa using hk
      rw [if_neg (by simp [hk'])] at h
      simp only [mapSet, hk', Bool.false_eq_true, if_false]
      rw [countFiles_cons, countFiles_cons]
      have := ih h
      omega

theorem countFiles_mapSet_absent (m : TreeMap) (k : String) (v : Node)
    (h : mapGet m k = none) :
    countFiles (mapSet m k v) = countFiles m + fileWeight v := by
  induction m with
  | nil =>
    simp only [mapSet]
    rw [countFiles_cons]
    simp [countFiles]
  | cons p rest ih =>
    obtain ⟨k', n'⟩ := p
    rw [mapGet_cons] at h
    by_cases hk : (k' == k) = true
    · rw [if_pos hk] at h
      simp at h
    · have hk' : (k' == k) = false := by simpa using hk
      rw [if_neg (by simp [hk'])] at h
      simp only [mapSet, hk', Bool.false_eq_true, if_false]
      rw [countFiles_cons, countFiles_cons, ih h]
      omega

theorem folderWeight_le (k : String) :
    (if (k == "_root_files") = true then 0 else 1) ≤ 1 := by
  split <;> omega

theorem countFolders_ensureChain : ∀ (ps : List String) (m : TreeMap),
    countFolders (ensureChain m ps) ≤ countFolders m + ps.length := by
  intro ps
  induction ps with
  | nil =>
    intro m
    simp [ensureChain]
  | cons part rest ih =>
    intro m
    cases hg : mapGet m part with
    | some n =>
      have heq : ensureChain m (part :: rest)
          = mapSet m part (Node.mk n.files (ensureChain n.folders rest)) := by
        simp [ensureChain, hg]
      rw [heq]
      have hpres := countFolders_mapSet_present m part
        (Node.mk n.files (ensureChain n.folders rest)) n hg
      have hw : folderWeight part (Node.mk n.files (ensureChain n.folders rest))
          = (if (part == "_root_files") = true then 0 else 1)
            + countFolders (ensureChain n.folders rest) := by
        simp [folderWeight, folders_mk]
      have hw2 : folderWeight part n
          = (if (part == "_root_files") = true then 0 else 1) + countFolders n.folders :=
        rfl
      have hih := ih n.folders
      simp only [List.length_cons]
      omega
    | none =>
      have heq : ensureChain m (part :: rest)
          = mapSet m part (Node.mk [] (ensureChain [] rest)) := by
        simp [ensureChain, hg, Node.files, Node.folders]
      rw [heq]
      have habs := countFolders_mapSet_absent m part
        (Node.mk [] (ensureChain [] rest)) hg
      have hw : folderWeight part (Node.mk [] (ensureChain [] rest))
          = (if (part == "_root_files") = true then 0 else 1)
            + countFolders (ensureChain [] rest) := by
        simp [folderWeight, folders_mk]
      have hih := ih []
      have h0 : countFolders ([] : TreeMap) = 0 := by simp [countFolders]
      have hle := folderWeight_le part
      simp only [List.length_cons]
      omega

theorem countFiles_ensureChain : ∀ (ps : List String) (m : TreeMap),
    countFiles (ensureChain m ps) = countFiles m := by
  intro ps
  induction ps with
  | nil =>
    intro m
    simp [ensureChain]
  | cons part rest ih =>
    intro m
    cases hg : mapGet m part with
    | some n =>
      have heq : ensureChain m (part :: rest)
          = mapSet m part (Node.mk n.files (ensureChain n.folders rest)) := by
        simp [ensureChain, hg]
      rw [heq]
      have hpres := countFiles_mapSet_present m part
        (Node.mk n.files (ensureChain n.folders rest)) n hg
      have hw : fileWeight (Node.mk n.files (ensureChain n.folders rest))
          = n.files.length + countFiles (ensureChain n.folders rest) := by
        simp [fileWeight, folders_mk, files_mk]
      have hw2 : fileWeight n = n.files.length + countFiles n.folders := rfl
      have hih := ih n.folders
      omega
    | none =>
      have heq : ensureChain m (part :: rest)
          = mapSet m part (Node.mk [] (ensureChain [] rest)) := by
        simp [ensureChain, hg, Node.files, Node.folders]
      rw [heq]
      have habs := countFiles_mapSet_absent m part (Node.mk [] (ensureChain [] rest)) hg
      have hw : fileWeight (Node.mk [] (ensureChain [] rest))
          = 0 + countFiles (ensureChain [] rest) := by
        simp [fileWeight, folders_mk, files_mk]
      have hih := ih []
      have h0 : countFiles ([] : TreeMap) = 0 := by simp [countFiles]
      omega

theorem chainPresent_ensureChain : ∀ (ps : List String) (m : TreeMap),
    chainPresent (ensureChain m ps) ps := by
  intro ps
  induction ps with
  | nil =>
    intro m
    trivial
  | cons part rest ih =>
    intro m
    cases hg : mapGet m part with
    | some n =>
      have heq : ensureChain m (part :: rest)
          = mapSet m part (Node.mk n.files (ensureChain n.folders rest)) := by
        simp [ensureChain, hg]
      rw [heq]
      exact ⟨Node.mk n.files (ensureChain n.folders rest), mapGet_mapSet_self m part _,
        by rw [folders_mk]; exact ih n.folders⟩
    | none =>
      have heq : ensureChain m (part :: rest)
          = mapSet m part (Node.mk [] (ensureChain [] rest)) := by
        simp [ensureChain, hg, Node.files, Node.folders]
      rw [heq]
      exact ⟨Node.mk [] (ensureChain [] rest), mapGet_mapSet_self m part _,
        by rw [folders_mk]; exact ih []⟩

theorem chainPresent_to_nodeAt : ∀ (ps : List String) (q : String) (m : TreeMap),
    chainPresent m (ps ++ [q]) → ∃ n, nodeAt m ps q = some n := by
  intro ps
  induction ps with
  | nil =>
    intro q m h
    obtain ⟨n, hg, _⟩ := h
    exact ⟨n, hg⟩
  | cons p rest ih =>
    intro q m h
    obtain ⟨n, hg, hrest⟩ := h
    have := ih q n.folders hrest
    simpa [nodeAt, hg] using this

theorem dropLast_append_getLastD (l : List String) (d : String) (h : l ≠ []) :
    l.dropLast ++ [l.getLastD d] = l := by
  have hs : l.getLast?.isSome := List.getLast?_isSome.mpr h
  cases hl : l.getLast? with
  | none =>
    rw [hl] at hs
    simp at hs
  | some a =>
    have ha : l.getLastD d = a := by
      rw [List.getLastD_eq_getLast?, hl]
      rfl
    rw [ha]
    exact List.dropLast_append_getLast? a (by rw [hl]; rfl)

theorem addFileAt_counts : ∀ (ps : List String) (m : TreeMap) (q : String)
    (fe : FileEntry) (n1 : Node), nodeAt m ps q = some n1 →
    countFolders (addFileAt m ps q fe) = countFolders m ∧
      countFiles (addFileAt m ps q fe) = countFiles m + 1 := by
  intro ps
  induction ps with
  | nil =>
    intro m q fe n1 h
    have hg : mapGet m q = some n1 := h
    have heq : addFileAt m [] q fe
        = mapSet m q (Node.mk (n1.files ++ [fe]) n1.folders) := by
      simp [addFileAt, hg]
    rw [heq]
    constructor
    · have hpres := countFolders_mapSet_present m q
        (Node.mk (n1.files ++ [fe]) n1.folders) n1 hg
      have hw : folderWeight q (Node.mk (n1.files ++ [fe]) n1.folders)
          = folderWeight q n1 := by
        simp [folderWeight, folders_mk]
      omega
    · have hpres := countFiles_mapSet_present m q
        (Node.mk (n1.files ++ [fe]) n1.folders) n1 hg
      have hw : fileWeight (Node.mk (n1.files ++ [fe]) n1.folders)
          = fileWeight n1 + 1 := by
        simp [fileWeight, folders_mk, files_mk]
        omega
      omega
  | cons p rest ih =>
    intro m q fe n1 h
    cases hg : mapGet m p with
    | none =>
      simp [nodeAt, hg] at h
    | some n =>
      have h' : nodeAt n.folders rest q = some n1 := by
        simpa [nodeAt, hg] using h
      have heq : addFileAt m (p :: rest) q fe
          = mapSet m p (Node.mk n.files (addFileAt n.folders rest q fe)) := by
        simp [addFileAt, hg]
      rw [heq]
      obtain ⟨ihf, ihfi⟩ := ih n.folders q fe n1 h'
      constructor
      · have hpres := countFolders_mapSet_present m p
          (Node.mk n.files (addFileAt n.folders rest q fe)) n hg
        have hw : folderWeight p (Node.mk n.files (addFileAt n.folders rest q fe))
            = (if (p == "_root_files") = true then 0 else 1)
              + countFolders (addFileAt n.folders rest q fe) := by
          simp [folderWeight, folders_mk]
        have hw2 : folderWeight p n
            = (if (p == "_root_files") = true then 0 else 1) + countFolders n.folders :=
          rfl
        omega
      · have hpres := countFiles_mapSet_present m p
          (Node.mk n.files (addFileAt n.folders rest q fe)) n hg
        have hw : fileWeight (Node.mk n.files (addFileAt n.folders rest q fe))
            = n.files.length + countFiles (addFileAt n.folders rest q fe) := by
          simp [fileWeight, folders_mk, files_mk]
        have hw2 : fileWeight n = n.files.length + countFiles n.folders := rfl
        omega

theorem addFileAt_root_counts (m : TreeMap) (fe : FileEntry) :
    countFolders (addFileAt m [] "_root_files" fe) = countFolders m ∧
      countFiles (addFileAt m [] "_root_files" fe) = countFiles m + 1 := by
  cases hg : mapGet m "_root_files" with
  | some n => exact addFileAt_counts [] m "_root_files" fe n hg
  | none =>
    have heq : addFileAt m [] "_root_files" fe
        = mapSet m "_root_files" (Node.mk ([] ++ [fe]) []) := by
      simp [addFileAt, hg, files_mk, folders_mk]
    rw [heq]
    constructor
    · rw [countFolders_mapSet_absent m _ _ hg]
      have : folderWeight "_root_files" (Node.mk ([] ++ [fe]) []) = 0 := by
        simp [folderWeight, folders_mk, countFolders]
      omega
    · rw [countFiles_mapSet_absent m _ _ hg]
      have : fileWeight (Node.mk ([] ++ [fe]) []) = 1 := by
        simp [fileWeight, files_mk, folders_mk, countFiles]
      omega

theorem hasFile_ensureChain : ∀ (ps : List String) (m : TreeMap) (path : List String)
    (lastName : String) (fe : FileEntry), hasFile m path lastName fe →
    hasFile (ensureChain m ps) path lastName fe := by
  intro ps
  induction ps with
  | nil =>
    intro m path lastName fe h
    simpa [ensureChain] using h
  | cons part rest ih =>
    intro m path lastName fe h
    obtain ⟨n0, hg0, hfe⟩ := h
    cases hg : mapGet m part with
    | some n =>
      have heq : ensureChain m (part :: rest)
          = mapSet m part (Node.mk n.files (ensureChain n.folders rest)) := by
        simp [ensureChain, hg]
      rw [heq]
      cases path with
      | nil =>
        by_cases hl : lastName = part
        · subst hl
          have hn0 : n0 = n := by
            have : mapGet m lastName = some n0 := hg0
            rw [hg] at this
            exact (Option.some.injEq _ _ ▸ this).symm
          refine ⟨Node.mk n.files (ensureChain n.folders rest), ?_, ?_⟩
          · exact mapGet_mapSet_self m lastName _
          · rw [files_mk]
            rw [hn0] at hfe
            exact hfe
        · refine ⟨n0, ?_, hfe⟩
          show mapGet _ lastName = some n0
          rw [mapGet_mapSet_ne m part lastName _ hl]
          exact hg0
      | cons p0 path' =>
        by_cases hp : p0 = part
        · subst hp
          have h2 : nodeAt n.folders path' lastName = some n0 := by
            simpa [nodeAt, hg] using hg0
          obtain ⟨n2, hn2, hfe2⟩ := ih n.folders path' lastName fe ⟨n0, h2, hfe⟩
          refine ⟨n2, ?_, hfe2⟩
          simp only [nodeAt, mapGet_mapSet_self, folders_mk]
          exact hn2
        · cases hm : mapGet m p0 with
          | none => simp [nodeAt, hm] at hg0
          | some nn =>
            have h2 : nodeAt nn.folders path' lastName = some n0 := by
              simpa [nodeAt, hm] using hg0
            refine ⟨n0, ?_, hfe⟩
            simp only [nodeAt, mapGet_mapSet_ne m part p0 _ hp, hm]
            exact h2
    | none =>
      have heq : ensureChain m (part :: rest)
          = mapSet m part (Node.mk [] (ensureChain [] rest)) := by
        simp [ensureChain, hg, Node.files, Node.folders]
      rw [heq]
      cases path with
      | nil =>
        by_cases hl : lastName = part
        · subst hl
          have : mapGet m lastName = some n0 := hg0
          rw [hg] at this
          exact absurd this (by simp)
        · refine ⟨n0, ?_, hfe⟩
          show mapGet _ lastName = some n0
          rw [mapGet_mapSet_ne m part lastName _ hl]
          exact hg0
      | cons p0 path' =>
        by_cases hp : p0 = part
        · subst hp
          simp [nodeAt, hg] at hg0
        · cases hm : mapGet m p0 with
          | none => simp [nodeAt, hm] at hg0
          | some nn =>
            have h2 : nodeAt nn.folders path' lastName = some n0 := by
              simpa [nodeAt, hm] using hg0
            refine ⟨n0, ?_, hfe⟩
            simp only [nodeAt, mapGet_mapSet_ne m part p0 _ hp, hm]
            exact h2

theorem hasFile_addFileAt : ∀ (ps : List String) (m : TreeMap) (q : String)
    (fe : FileEntry) (path : List String) (lastName : String) (fe0 : FileEntry),
    hasFile m path lastName fe0 → hasFile (addFileAt m ps q fe) path lastName fe0 := by
  intro ps
  induction ps with
  | nil =>
    intro m q fe path lastName fe0 h
    obtain ⟨n0, hg0, hfe⟩ := h
    cases hgq : mapGet m q with
    | some n =>
      have heq : addFileAt m [] q fe
          = mapSet m q (Node.mk (n.files ++ [fe]) n.folders) := by
        simp [addFileAt, hgq]
      rw [heq]
      cases path with
      | nil =>
        by_cases hl : lastName = q
        · subst hl
          have hn0 : n0 = n := by
            have : mapGet m lastName = some n0 := hg0
            rw [hgq] at this
            exact (Option.some.injEq _ _ ▸ this).symm
          refine ⟨Node.mk (n.files ++ [fe]) n.folders, mapGet_mapSet_self m lastName _, ?_⟩
          rw [files_mk]
          exact List.mem_append_left _ (hn0 ▸ hfe)
        · refine ⟨n0, ?_, hfe⟩
          show mapGet _ lastName = some n0
          rw [mapGet_mapSet_ne m q lastName _ hl]
          exact hg0
      | cons p0 path' =>
        by_cases hp : p0 = q
        · subst hp
          have hnn : nodeAt n.folders path' lastName = some n0 := by
            simpa [nodeAt, hgq] using hg0
          refine ⟨n0, ?_, hfe⟩
          simp only [nodeAt, mapGet_mapSet_self, folders_mk]
          exact hnn
        · cases hm : mapGet m p0 with
          | none => simp [nodeAt, hm] at hg0
          | some nn =>
            have h2 : nodeAt nn.folders path' lastName = some n0 := by
              simpa [nodeAt, hm] using hg0
            refine ⟨n0, ?_, hfe⟩
            simp only [nodeAt, mapGet_mapSet_ne m q p0 _ hp, hm]
            exact h2
    | none =>
      have heq : addFileAt m [] q fe = mapSet m q (Node.mk ([] ++ [fe]) []) := by
        simp [addFileAt, hgq, files_mk, folders_mk]
      rw [heq]
      cases path with
      | nil =>
        by_cases hl : lastName = q
        · subst hl
          have : mapGet m lastName = some n0 := hg0
          rw [hgq] at this
          exact absurd this (by simp)
        · refine ⟨n0, ?_, hfe⟩
          show mapGet _ lastName = some n0
          rw [mapGet_mapSet_ne m q lastName _ hl]
          exact hg0
      | cons p0 path' =>
        by_cases hp : p0 = q
        · subst hp
          simp [nodeAt, hgq] at hg0
        · cases hm : mapGet m p0 with
          | none => simp [nodeAt, hm] at hg0
          | some nn =>
            have h2 : nodeAt nn.folders path' lastName = some n0 := by
              simpa [nodeAt, hm] using hg0
            refine ⟨n0, ?_, hfe⟩
            simp only [nodeAt, mapGet_mapSet_ne m q p0 _ hp, hm]
            exact h2
  | cons p rest ih =>
    intro m q fe path lastName fe0 h
    obtain ⟨n0, hg0, hfe⟩ := h
    cases hg : mapGet m p with
    | none =>
      have heq : addFileAt m (p :: rest) q fe = m := by
        simp [addFileAt, hg]
      rw [heq]
      exact ⟨n0, hg0, hfe⟩
    | some n =>
      have heq : addFileAt m (p :: rest) q fe
          = mapSet m p (Node.mk n.files (addFileAt n.folders rest q fe)) := by
        simp [addFileAt, hg]
      rw [heq]
      cases path with
      | nil =>
        by_cases hl : lastName = p
        · subst hl
          have hn0 : n0 = n := by
            have : mapGet m lastName = some n0 := hg0
            rw [hg] at this
            exact (Option.some.injEq _ _ ▸ this).symm
          refine ⟨Node.mk n.files (addFileAt n.folders rest q fe),
            mapGet_mapSet_self m lastName _, ?_⟩
          rw [files_mk]
          exact hn0 ▸ hfe
        · refine ⟨n0, ?_, hfe⟩
          show mapGet _ lastName = some n0
          rw [mapGet_mapSet_ne m p lastName _ hl]
          exact hg0
      | cons p0 path' =>
        by_cases hp : p0 = p
        · subst hp
          have h2 : nodeAt n.folders path' lastName = some n0 := by
            simpa [nodeAt, hg] using hg0
          obtain ⟨n2, hn2, hfe2⟩ := ih n.folders q fe path' lastName fe0 ⟨n0, h2, hfe⟩
          refine ⟨n2, ?_, hfe2⟩
          simp only [nodeAt, mapGet_mapSet_self, folders_mk]
          exact hn2
        · cases hm : mapGet m p0 with
          | none => simp [nodeAt, hm] at hg0
          | some nn =>
            have h2 : nodeAt nn.folders path' lastName = some n0 := by
              simpa [nodeAt, hm] using hg0
            refine ⟨n0, ?_, hfe⟩
            simp only [nodeAt, mapGet_mapSet_ne m p p0 _ hp, hm]
            exact h2

theorem hasFile_addFileAt_self_nil (m : TreeMap) (q : String) (fe : FileEntry) :
    hasFile (addFileAt m [] q fe) [] q fe := by
  cases hg : mapGet m q with
  | some n =>
    have heq : addFileAt m [] q fe
        = mapSet m q (Node.mk (n.files ++ [fe]) n.folders) := by
      simp [addFileAt, hg]
    rw [heq]
    refine ⟨Node.mk (n.files ++ [fe]) n.folders, mapGet_mapSet_self m q _, ?_⟩
    rw [files_mk]
    exact List.mem_append_right _ (by simp)
  | none =>
    have heq : addFileAt m [] q fe = mapSet m q (Node.mk ([] ++ [fe]) []) := by
      simp [addFileAt, hg, files_mk, folders_mk]
    rw [heq]
    refine ⟨Node.mk ([] ++ [fe]) [], mapGet_mapSet_self m q _, ?_⟩
    rw [files_mk]
    simp

theorem hasFile_addFileAt_self : ∀ (ps : List String) (m : TreeMap) (q : String)
    (fe : FileEntry) (n1 : Node), nodeAt m ps q = some n1 →
    hasFile (addFileAt m ps q fe) ps q fe := by
  intro ps
  induction ps with
  | nil =>
    intro m q fe n1 _
    exact hasFile_addFileAt_self_nil m q fe
  | cons p rest ih =>
    intro m q fe n1 h
    cases hg : mapGet m p with
    | none => simp [nodeAt, hg] at h
    | some n =>
      have h' : nodeAt n.folders rest q = some n1 := by
        simpa [nodeAt, hg] using h
      have heq : addFileAt m (p :: rest) q fe
          = mapSet m p (Node.mk n.files (addFileAt n.folders rest q fe)) := by
        simp [addFileAt, hg]
      rw [heq]
      obtain ⟨n2, hn2, hfe2⟩ := ih n.folders q fe n1 h'
      refine ⟨n2, ?_, hfe2⟩
      simp only [nodeAt, mapGet_mapSet_self, folders_mk]
      exact hn2

theorem pySplitAux_ne_nil (sep : Char) : ∀ (l acc : List Char),
    pySplitAux sep l acc ≠ [] := by
  intro l
  induction l with
  | nil => intro acc; simp [pySplitAux]
  | cons c rest ih =>
    intro acc
    by_cases h : (c == sep) = true <;> simp [pySplitAux, h, ih]

theorem pySplit_ne_nil (s : String) (sep : Char) : pySplit s sep ≠ [] :=
  pySplitAux_ne_nil sep s.data []

theorem insertRecord_eq_addFile (tree : TreeMap) (obj : S3Object)
    (hN : (pySplit obj.Key '/').length > 1)
    (hlast : ((pySplit obj.Key '/').getLastD "" != "") = true) :
    insertRecord tree obj
      = addFileAt (ensureChain tree (pySplit obj.Key '/').dropLast)
          (pySplit obj.Key '/').dropLast.dropLast
          ((pySplit obj.Key '/').dropLast.getLastD "")
          { key := obj.Key, size := obj.Size } := by
  simp only [insertRecord]
  rw [if_pos hlast, if_pos hN]

theorem insertRecord_eq_root (tree : TreeMap) (obj : S3Object)
    (hN : ¬(pySplit obj.Key '/').length > 1)
    (hlast : ((pySplit obj.Key '/').getLastD "" != "") = true) :
    insertRecord tree obj
      = addFileAt (ensureChain tree (pySplit obj.Key '/').dropLast) []
          "_root_files" { key := obj.Key, size := obj.Size } := by
  simp only [insertRecord]
  rw [if_pos hlast, if_neg hN]
  rfl

theorem insertRecord_eq_skip (tree : TreeMap) (obj : S3Object)
    (hlast : ((pySplit obj.Key '/').getLastD "" != "") = false) :
    insertRecord tree obj = ensureChain tree (pySplit obj.Key '/').dropLast := by
  simp only [insertRecord]
  rw [if_neg (fun hcon => by rw [hlast] at hcon; exact Bool.false_ne_true hcon)]

theorem insertRecord_counts (tree : TreeMap) (obj : S3Object) :
    countFolders (insertRecord tree obj)
        ≤ countFolders tree + ((pySplit obj.Key '/').length - 1) ∧
      countFiles (insertRecord tree obj)
        = countFiles tree + (if keyLastSeg obj.Key ≠ "" then 1 else 0) := by
  have hlen1 : (pySplit obj.Key '/').length ≥ 1 := by
    have := pySplit_ne_nil obj.Key '/'
    cases h : pySplit obj.Key '/' with
    | nil => exact absurd h this
    | cons a t => simp
  have hdl : (pySplit obj.Key '/').dropLast.length = (pySplit obj.Key '/').length - 1 :=
    List.length_dropLast _
  by_cases hlast : ((pySplit obj.Key '/').getLastD "" != "") = true
  · have hkls : keyLastSeg obj.Key ≠ "" := by
      simpa [keyLastSeg, bne_iff_ne] using hlast
    by_cases hN : (pySplit obj.Key '/').length > 1
    · rw [insertRecord_eq_addFile tree obj hN hlast]
      have hne : (pySplit obj.Key '/').dropLast ≠ [] := by
        intro hcon
        rw [hcon] at hdl
        simp at hdl
        omega
      have hchain : chainPresent (ensureChain tree (pySplit obj.Key '/').dropLast)
          ((pySplit obj.Key '/').dropLast.dropLast
            ++ [(pySplit obj.Key '/').dropLast.getLastD ""]) := by
        rw [dropLast_append_getLastD _ "" hne]
        exact chainPresent_ensureChain _ tree
      obtain ⟨n1, hn1⟩ := chainPresent_to_nodeAt _ _ _ hchain
      obtain ⟨hcf, hcfi⟩ := addFileAt_counts _ _ _ _ n1 hn1
      constructor
      · rw [hcf]
        have := countFolders_ensureChain (pySplit obj.Key '/').dropLast tree
        omega
      · rw [hcfi, countFiles_ensureChain, if_pos hkls]
    · rw [insertRecord_eq_root tree obj hN hlast]
      obtain ⟨hcf, hcfi⟩ :=
        addFileAt_root_counts (ensureChain tree (pySplit obj.Key '/').dropLast)
          { key := obj.Key, size := obj.Size }
      constructor
      · rw [hcf]
        have := countFolders_ensureChain (pySplit obj.Key '/').dropLast tree
        omega
      · rw [hcfi, countFiles_ensureChain, if_pos hkls]
  · have hlast' : ((pySplit obj.Key '/').getLastD "" != "") = false := by
      simpa using hlast
    have hkls : ¬keyLastSeg obj.Key ≠ "" := by
      simp only [keyLastSeg, ne_eq, not_not]
      simpa [bne_eq_false_iff_eq] using hlast'
    rw [insertRecord_eq_skip tree obj hlast']
    constructor
    · have := countFolders_ensureChain (pySplit obj.Key '/').dropLast tree
      omega
    · rw [countFiles_ensureChain, if_neg hkls]
      rfl

theorem insertRecord_hasFile_self (tree : TreeMap) (obj : S3Object)
    (h : keyLastSeg obj.Key ≠ "") :
    hasFile (insertRecord tree obj) (keyChainPath obj.Key) (keyChainLast obj.Key)
      { key := obj.Key, size := obj.Size } := by
  have hlast : ((pySplit obj.Key '/').getLastD "" != "") = true := by
    simpa [keyLastSeg, bne_iff_ne] using h
  by_cases hN : (pySplit obj.Key '/').length > 1
  · rw [insertRecord_eq_addFile tree obj hN hlast]
    have hdl : (pySplit obj.Key '/').dropLast.length = (pySplit obj.Key '/').length - 1 :=
      List.length_dropLast _
    have hne : (pySplit obj.Key '/').dropLast ≠ [] := by
      intro hcon
      rw [hcon] at hdl
      simp at hdl
      omega
    have hchain : chainPresent (ensureChain tree (pySplit obj.Key '/').dropLast)
        ((pySplit obj.Key '/').dropLast.dropLast
          ++ [(pySplit obj.Key '/').dropLast.getLastD ""]) := by
      rw [dropLast_append_getLastD _ "" hne]
      exact chainPresent_ensureChain _ tree
    obtain ⟨n1, hn1⟩ := chainPresent_to_nodeAt _ _ _ hchain
    have := hasFile_addFileAt_self _ _ _ { key := obj.Key, size := obj.Size } n1 hn1
    simpa [keyChainPath, keyChainLast, hN] using this
  · rw [insertRecord_eq_root tree obj hN hlast]
    have := hasFile_addFileAt_self_nil (ensureChain tree (pySplit obj.Key '/').dropLast)
      "_root_files" { key := obj.Key, size := obj.Size }
    simpa [keyChainPath, keyChainLast, hN] using this

theorem insertRecord_hasFile_mono (tree : TreeMap) (obj : S3Object) (path : List String)
    (lastName : String) (fe0 : FileEntry) (h : hasFile tree path lastName fe0) :
    hasFile (insertRecord tree obj) path lastName fe0 := by
  have h1 := hasFile_ensureChain (pySplit obj.Key '/').dropLast tree path lastName fe0 h
  by_cases hlast : ((pySplit obj.Key '/').getLastD "" != "") = true
  · by_cases hN : (pySplit obj.Key '/').length > 1
    · rw [insertRecord_eq_addFile tree obj hN hlast]
      exact hasFile_addFileAt _ _ _ _ _ _ _ h1
    · rw [insertRecord_eq_root tree obj hN hlast]
      exact hasFile_addFileAt [] _ _ _ _ _ _ h1
  · have hlast' : ((pySplit obj.Key '/').getLastD "" != "") = false := by
      simpa using hlast
    rw [insertRecord_eq_skip tree obj hlast']
    exact h1

theorem foldl_hasFile_mono : ∀ (objects : List S3Object) (tree : TreeMap)
    (path : List String) (lastName : String) (fe0 : FileEntry),
    hasFile tree path lastName fe0 →
    hasFile (List.foldl insertRecord tree objects) path lastName fe0 := by
  intro objects
  induction objects with
  | nil =>
    intro tree path lastName fe0 h
    simpa using h
  | cons o rest ih =>
    intro tree path lastName fe0 h
    rw [List.foldl_cons]
    exact ih _ _ _ _ (insertRecord_hasFile_mono tree o path lastName fe0 h)

theorem foldl_hasFile_self : ∀ (objects : List S3Object) (tree : TreeMap)
    (obj : S3Object), obj ∈ objects → keyLastSeg obj.Key ≠ "" →
    hasFile (List.foldl insertRecord tree objects) (keyChainPath obj.Key)
      (keyChainLast obj.Key) { key := obj.Key, size := obj.Size } := by
  intro objects
  induction objects with
  | nil =>
    intro tree obj h
    simp at h
  | cons o rest ih =>
    intro tree obj hmem hlast
    rw [List.foldl_cons]
    rcases List.mem_cons.mp hmem with rfl | hmem'
    · exact foldl_hasFile_mono rest _ _ _ _ (insertRecord_hasFile_self tree obj hlast)
    · exact ih _ obj hmem' hlast

/-! ## C5 — tree-builder correctness -/

/-- C5: (i) the three-object scenario listing builds exactly the tree with
root file `root.txt` (under the reserved `"_root_files"` container), folder
`a` holding `b.txt` and subfolder `c` holding `d.txt` (file entries carry
the full key, as stored by app.py:79/82; the renderer displays their
basenames); (ii) every record with a non-empty last segment appears as a
file entry in the node addressed by the folder chain implied by its
`'/'`-split key; (iii) one insertion creates at most `N − 1` rendered
folder nodes and exactly one file entry (none when the last segment is
empty), where `N` is the key's segment count. -/
theorem C5_build_tree_shape (objects : List S3Object) (obj : S3Object) (tree : TreeMap) :
    build_tree [⟨"a/b.txt", 10⟩, ⟨"a/c/d.txt", 20⟩, ⟨"root.txt", 5⟩]
        = [("a", Node.mk [⟨"a/b.txt", 10⟩]
              [("c", Node.mk [⟨"a/c/d.txt", 20⟩] [])]),
           ("_root_files", Node.mk [⟨"root.txt", 5⟩] [])] ∧
      (obj ∈ objects → keyLastSeg obj.Key ≠ "" →
        hasFile (build_tree objects) (keyChainPath obj.Key) (keyChainLast obj.Key)
          { key := obj.Key, size := obj.Size }) ∧
      countFolders (insertRecord tree obj)
          ≤ countFolders tree + ((pySplit obj.Key '/').length - 1) ∧
      countFiles (insertRecord tree obj)
        = countFiles tree + (if keyLastSeg obj.Key ≠ "" then 1 else 0) := by
  refine ⟨rfl, ?_, (insertRecord_counts tree obj).1, (insertRecord_counts tree obj).2⟩
  intro hmem hlast
  exact foldl_hasFile_self objects [] obj hmem hlast

/-- Witness for `C5_build_tree_shape`: the scenario's first record is filed
under folder `a`. -/
theorem C5_build_tree_shape_witness :
    ((⟨"a/b.txt", 10⟩ : S3Object)
        ∈ ([⟨"a/b.txt", 10⟩, ⟨"a/c/d.txt", 20⟩, ⟨"root.txt", 5⟩] : List S3Object)) ∧
      keyLastSeg "a/b.txt" ≠ "" ∧
      hasFile (build_tree [⟨"a/b.txt", 10⟩, ⟨"a/c/d.txt", 20⟩, ⟨"root.txt", 5⟩])
        (keyChainPath "a/b.txt") (keyChainLast "a/b.txt")
        { key := "a/b.txt", size := 10 } :=
  ⟨by decide, by decide,
    (C5_build_tree_shape [⟨"a/b.txt", 10⟩, ⟨"a/c/d.txt", 20⟩, ⟨"root.txt", 5⟩]
      ⟨"a/b.txt", 10⟩ []).2.1 (by decide) (by decide)⟩

/-! ## Renderer lemmas -/

theorem sizeOf_insertByName (p : String × Node) (m : TreeMap) :
    sizeOf (insertByName p m) = 1 + sizeOf p + sizeOf m := by
  induction m with
  | nil => simp [insertByName]
  | cons q rest ih =>
    simp only [insertByName]
    by_cases h : strLt p.1 q.1
    · simp [h]
      try omega
    · simp [h, ih]
      try omega

theorem sizeOf_sortByName (m : TreeMap) : sizeOf (sortByName m) = sizeOf m := by
  induction m with
  | nil => rfl
  | cons q rest ih =>
    show sizeOf (insertByName q (sortByName rest)) = _
    rw [sizeOf_insertByName, ih]
    simp

theorem sizeOf_node_folders (n : Node) : sizeOf n.folders < sizeOf n := by
  cases n
  simp [Node.folders]

theorem folderStart_not_in_rootFileItems (t : TreeMap) (nm fpath : String) :
    RItem.folderStart nm fpath ∉ rootFileItems t := by
  unfold rootFileItems
  cases mapGet t "_root_files" <;> simp

theorem folderStart_notRoot_aux : ∀ (fuel : Nat) (items : TreeMap),
    sizeOf items ≤ fuel → ∀ (pfx : String) (level : Nat) (pp nm fpath : String),
    RItem.folderStart nm fpath ∈ renderFolders items pfx level pp →
    nm ≠ "_root_files" := by
  intro fuel
  induction fuel with
  | zero =>
    intro items hle
    exact absurd hle (by cases items <;> simp)
  | succ k ih =>
    intro items hle pfx level pp nm fpath hmem
    match items with
    | [] => simp [renderFolders] at hmem
    | (folder_name, content) :: rest =>
      have hsz : sizeOf rest ≤ k ∧ sizeOf content.folders + 1 ≤ k := by
        have h1 : sizeOf content.folders < sizeOf content := sizeOf_node_folders content
        simp only [List.cons.sizeOf_spec, Prod.mk.sizeOf_spec] at hle
        omega
      simp only [renderFolders] at hmem
      by_cases hrf : (folder_name == "_root_files") = true
      · rw [if_pos hrf] at hmem
        exact ih rest hsz.1 pfx level pp nm fpath hmem
      · rw [if_neg hrf] at hmem
        rcases List.mem_cons.mp hmem with heq | hmem2
        · obtain rfl : nm = folder_name := by
            injection heq with h1 h2
          intro hcon
          rw [hcon] at hrf
          simp at hrf
        · rcases List.mem_append.mp hmem2 with hmid | hrest
          · rcases List.mem_append.mp hmid with hmapif | hend
            · rcases List.mem_append.mp hmapif with hmap | hinner
              · obtain ⟨fe, _, hfe⟩ := List.mem_map.mp hmap
                exact absurd hfe (by simp)
              · by_cases hemp : content.folders.isEmpty = true
                · rw [if_pos hemp] at hinner
                  simp at hinner
                · rw [if_neg hemp] at hinner
                  rcases List.mem_append.mp hinner with hroot | hrec
                  · exact absurd hroot (folderStart_not_in_rootFileItems _ nm fpath)
                  · refine ih (sortByName content.folders) ?_ _ _ _ nm fpath hrec
                    rw [sizeOf_sortByName]
                    omega
            · simp at hend
          · exact ih rest hsz.1 pfx level pp nm fpath hrest

/-- The renderer (at any level and with any identifiers) never emits a
folder block named `"_root_files"`: that name is skipped in the folder loop
(app.py:103-104) and only its files are shown (app.py:93-99). -/
theorem folderStart_notRoot (tree : TreeMap) (pfx : String) (level : Nat)
    (pp nm fpath : String)
    (h : RItem.folderStart nm fpath ∈ renderTree tree pfx level pp) :
    nm ≠ "_root_files" := by
  unfold renderTree at h
  rcases List.mem_append.mp h with hroot | hfold
  · exact absurd hroot (folderStart_not_in_rootFileItems _ nm fpath)
  · exact folderStart_notRoot_aux (sizeOf (sortByName tree)) _ (Nat.le_refl _)
      pfx level pp nm fpath hfold

/-! ## C10 — the reserved `"_root_files"` key -/

/-- C10: `build_tree` keeps root-level files under the reserved key
`"_root_files"` inside the same top-level mapping as the folders, so
(i) on the listing `["root.txt", "_root_files/x.txt"]` both file entries
end up in the one `"_root_files"` container; (ii) for every listing, a
record whose key splits as `["_root_files", x]` (non-empty `x`) has its
file entry merged into the same top-level `"_root_files"` container that
holds root files; and (iii) the renderer never renders a folder named
`"_root_files"` at any level. -/
theorem C10_root_files_reserved (objects : List S3Object) (obj : S3Object) (x : String)
    (tree : TreeMap) (pfx pp : String) (level : Nat) :
    mapGet (build_tree [⟨"root.txt", 5⟩, ⟨"_root_files/x.txt", 7⟩]) "_root_files"
        = some (Node.mk [⟨"root.txt", 5⟩, ⟨"_root_files/x.txt", 7⟩] []) ∧
      (obj ∈ objects → pySplit obj.Key '/' = ["_root_files", x] → x ≠ "" →
        ∃ n, mapGet (build_tree objects) "_root_files" = some n ∧
          ({ key := obj.Key, size := obj.Size } : FileEntry) ∈ n.files) ∧
      ∀ nm fpath, RItem.folderStart nm fpath ∈ renderTree tree pfx level pp →
        nm ≠ "_root_files" := by
  refine ⟨rfl, ?_, fun nm fpath h => folderStart_notRoot tree pfx level pp nm fpath h⟩
  intro hmem hsplit hx
  have hlast : keyLastSeg obj.Key ≠ "" := by
    simp only [keyLastSeg, hsplit]
    simpa [List.getLastD] using hx
  have h := foldl_hasFile_self objects [] obj hmem hlast
  have hpath : keyChainPath obj.Key = [] := by
    simp [keyChainPath, hsplit]
  have hlastn : keyChainLast obj.Key = "_root_files" := by
    simp [keyChainLast, hsplit, List.getLastD]
  rw [hpath, hlastn] at h
  obtain ⟨n, hn, hfe⟩ := h
  exact ⟨n, hn, hfe⟩

/-- Witness for `C10_root_files_reserved`: the record `"_root_files/x.txt"`
of the two-object listing lands in the root-file container. -/
theorem C10_root_files_reserved_witness :
    ((⟨"_root_files/x.txt", 7⟩ : S3Object)
        ∈ ([⟨"root.txt", 5⟩, ⟨"_root_files/x.txt", 7⟩] : List S3Object)) ∧
      pySplit "_root_files/x.txt" '/' = ["_root_files", "x.txt"] ∧
      ("x.txt" : String) ≠ "" ∧
      ∃ n, mapGet (build_tree [⟨"root.txt", 5⟩, ⟨"_root_files/x.txt", 7⟩]) "_root_files"
          = some n ∧
        ({ key := "_root_files/x.txt", size := 7 } : FileEntry) ∈ n.files :=
  ⟨by decide, by decide, by decide,
    (C10_root_files_reserved [⟨"root.txt", 5⟩, ⟨"_root_files/x.txt", 7⟩]
        ⟨"_root_files/x.txt", 7⟩ "x.txt" [] "" "" 0).2.1
      (by decide) (by decide) (by decide)⟩

end MinioApp
